import Mathlib

/-!
Shallow embedding of the monero-highway repository
(`git.gammaspectra.live/P2Pool/monero-highway`), covering the checkpoint
data model (`internal/highway/checkpoint/checkpoint.go`), the DNSSEC
signer and record store (`cmd/dns-checkpoints/dnssec.go`), the query
responder (`cmd/dns-checkpoints/server.go`), the mutation API and server
wiring (`cmd/dns-checkpoints/main.go`), and the chain walker
(`cmd/checkpointer/monerod.go`).

Machine integers are modelled as `Nat`/`Int` with an explicit `% 2^w`
wherever the Go code's fixed-width arithmetic can wrap.  Go strings are
modelled as `List Char` (byte strings; everything here is ASCII).
Fallible code returns `Option`/`Except`.
-/

namespace MoneroHighway

/-! ## Checkpoints — `src/internal/highway/checkpoint/checkpoint.go`

`types.Hash` (an external dependency, `P2Pool/consensus`) is a 32-byte
array; it is modelled as a `List Nat` of byte values. -/

def HashSize : Nat := 32

/-- `types.ZeroHash`: the all-zero 32-byte hash. -/
def ZeroHash : List Nat := List.replicate HashSize 0

/-- `Checkpoint`: a `(height uint64, id types.Hash)` pair. -/
structure Checkpoint where
  Height : Nat
  Id : List Nat
deriving DecidableEq, Repr

/-- Go's `int(x)` conversion of a `uint64` value on a 64-bit platform:
reinterpret the low 64 bits in two's complement. -/
def toInt64 (n : Nat) : Int :=
  let m : Nat := n % 2 ^ 64
  if m < 2 ^ 63 then (m : Int) else (m : Int) - 2 ^ 64

/-- Go `int` (= int64) subtraction, wrapping on overflow. -/
def int64Sub (x y : Int) : Int := ((x - y + 2 ^ 63) % 2 ^ 64) - 2 ^ 63

/-- The comparator literal of `Checkpoints.sorted` / `Checkpoints.Sort`:
`int(b.Height) - int(a.Height)`, evaluated in Go `int` arithmetic. -/
def sortedCmp (a b : Checkpoint) : Int := int64Sub (toInt64 b.Height) (toInt64 a.Height)

/-- `slices.IsSortedFunc`: the list is sorted when `cmp(x[i], x[i-1]) ≥ 0`
for every adjacent pair. -/
def isSortedFunc (cmp : Checkpoint → Checkpoint → Int) : List Checkpoint → Bool
  | [] => true
  | [_] => true
  | a :: b :: rest => decide (0 ≤ cmp b a) && isSortedFunc cmp (b :: rest)

/-- `Checkpoints.sorted`: "sorted descending" via `slices.IsSortedFunc`
with the `int`-subtraction comparator. -/
def Checkpoints.sorted (c : List Checkpoint) : Bool := isSortedFunc sortedCmp c

/-- The `for i, checkpoint := range c` loop body of `Checkpoints.Validate`:
`i` is the index, `lastHeight` the previous element's height (Go zero value
`0` before the first iteration, never read there because of the `i > 0`
guard). -/
def validateLoop : List Checkpoint → Nat → Nat → Option (List Char)
  | [], _, _ => none
  | cp :: rest, i, lastHeight =>
    if 0 < i ∧ lastHeight = cp.Height then
      some ('d' :: 'u' :: 'p' :: [])
    else if cp.Id = ZeroHash then
      some ('z' :: 'e' :: 'r' :: 'o' :: [])
    else validateLoop rest (i + 1) cp.Height

/-- `Checkpoints.Validate`: error when not `sorted()`, then (for non-empty
lists) error on a repeated height or a zero id.  `none` is Go's `nil`
error; the `some` payloads stand for the distinct error messages. -/
def Checkpoints.Validate (c : List Checkpoint) : Option (List Char) :=
  if !(Checkpoints.sorted c) then some ('u' :: 'n' :: 's' :: 'o' :: 'r' :: 't' :: [])
  else if c.length = 0 then none
  else validateLoop c 0 0

/-- The specification's ordering: heights strictly descending
("sorted strictly descending by height", spec §3).  This definition follows
the spec's words, for comparison against `Checkpoints.sorted`. -/
def specStrictlyDescending (c : List Checkpoint) : Bool :=
  match c with
  | [] => true
  | [_] => true
  | a :: b :: rest => decide (b.Height < a.Height) && specStrictlyDescending (b :: rest)

/-- A concrete non-zero hash (byte 1 followed by 31 zero bytes). -/
def testHashA : List Nat := 1 :: List.replicate 31 0

/-- A second concrete non-zero hash. -/
def testHashB : List Nat := 2 :: List.replicate 31 0

/-- Heights `[0, 2^63 + 5]`: ascending, hence not descending-sorted. -/
def c4AscendingList : List Checkpoint := [⟨0, testHashA⟩, ⟨2 ^ 63 + 5, testHashB⟩]

/-- Heights `[2^63, 0]`: strictly descending. -/
def c4DescendingList : List Checkpoint := [⟨2 ^ 63, testHashA⟩, ⟨0, testHashB⟩]

/-- Claim C4: `Checkpoints.Validate` was claimed to reject every unsorted
list over the full uint64 height range.  The comparator
`int(b.Height) - int(a.Height)` wraps for heights ≥ 2^63, so the ascending
list with heights `[0, 2^63 + 5]` (all ids non-zero) is accepted by
`Validate`, while the strictly descending list with heights `[2^63, 0]` is
rejected — the code contradicts its own `// sorted descending` comment. -/
theorem C4_validate_wraps_on_large_heights :
    Checkpoints.Validate c4AscendingList = none ∧
    specStrictlyDescending c4AscendingList = false ∧
    (∀ cp ∈ c4AscendingList, cp.Id ≠ ZeroHash) ∧
    Checkpoints.Validate c4DescendingList ≠ none ∧
    specStrictlyDescending c4DescendingList = true ∧
    (∀ cp ∈ c4DescendingList, cp.Id ≠ ZeroHash) := by decide

/-! ### Checkpoint wire form — `Checkpoint.String` / `FromString` -/

/-- The ASCII digit character for `n < 10` (Go `%d` emits base-10 digits). -/
def decDigitChar (n : Nat) : Char := Char.ofNat (48 + n)

/-- Go `fmt.Sprintf("%d", height)`: base-10 digits, most significant first. -/
def natToDec (n : Nat) : List Char :=
  if _h : n < 10 then [decDigitChar n]
  else natToDec (n / 10) ++ [decDigitChar (n % 10)]
  termination_by n
  decreasing_by exact Nat.div_lt_self (by omega) (by omega)

/-- The lowercase hex character for `n < 16` (Go `%x`). -/
def hexDigitChar (n : Nat) : Char :=
  if n < 10 then Char.ofNat (48 + n) else Char.ofNat (87 + n)

/-- Go `fmt.Sprintf("%x", bytes)`: two lowercase hex digits per byte,
high nibble first. -/
def hexEncode : List Nat → List Char
  | [] => []
  | b :: rest => hexDigitChar (b / 16 % 16) :: hexDigitChar (b % 16) :: hexEncode rest

/-- `Checkpoint.String`: `fmt.Sprintf("%d:%x", c.Height, c.Id.Slice())`. -/
def Checkpoint.toWire (c : Checkpoint) : List Char :=
  natToDec c.Height ++ ':' :: hexEncode c.Id

/-- The value of a base-10 digit character, as `strconv.ParseUint` with
base 10 accepts it (`'0'..'9'` only). -/
def digitVal (c : Char) : Option Nat :=
  if 48 ≤ c.toNat ∧ c.toNat ≤ 57 then some (c.toNat - 48) else none

/-- The accumulating digit loop of `strconv.ParseUint`. -/
def parseDecCore (s : List Char) : Option Nat :=
  s.foldl (fun acc c => acc.bind fun a => (digitVal c).map fun d => a * 10 + d) (some 0)

/-- `strconv.ParseUint(s, 10, 64)`: rejects the empty string, any non-digit
character, and any value that does not fit in 64 bits (`ErrRange`). -/
def parseUint64 (s : List Char) : Option Nat :=
  if s.isEmpty then none
  else match parseDecCore s with
    | none => none
    | some v => if v < 2 ^ 64 then some v else none

/-- The value of a hex digit as `encoding/hex` accepts it
(`0-9`, `a-f`, `A-F`). -/
def hexDigitVal (c : Char) : Option Nat :=
  if 48 ≤ c.toNat ∧ c.toNat ≤ 57 then some (c.toNat - 48)
  else if 97 ≤ c.toNat ∧ c.toNat ≤ 102 then some (c.toNat - 87)
  else if 65 ≤ c.toNat ∧ c.toNat ≤ 70 then some (c.toNat - 55)
  else none

/-- `encoding/hex` decoding: pairs of hex digits to bytes; odd length or a
non-hex character is an error. -/
def hexDecode : List Char → Option (List Nat)
  | [] => some []
  | [_] => none
  | hi :: lo :: rest =>
    match hexDigitVal hi, hexDigitVal lo, hexDecode rest with
    | some h, some l, some bs => some ((h * 16 + l) :: bs)
    | _, _, _ => none

/-- `types.HashFromString` (external dependency `P2Pool/consensus`):
hex-decodes a string of exactly `2 * HashSize` characters into a 32-byte
hash. -/
def HashFromString (s : List Char) : Option (List Nat) :=
  if s.length = HashSize * 2 then hexDecode s else none

/-- The cutset of `strings.Trim(s, "\"\r\n ")` in `FromString`. -/
def trimCutset (c : Char) : Bool :=
  c.toNat = 34 || c.toNat = 13 || c.toNat = 10 || c.toNat = 32

/-- `strings.Trim`: drop leading and trailing cutset characters. -/
def trimGo (s : List Char) : List Char :=
  ((s.dropWhile trimCutset).reverse.dropWhile trimCutset).reverse

/-- `strings.SplitN(s, ":", 2)`: split at the first colon.  `none` models
the single-element result (`len(parts) != 2`) when no colon occurs. -/
def splitOnceColon : List Char → Option (List Char × List Char)
  | [] => none
  | c :: rest =>
    if c = ':' then some ([], rest)
    else match splitOnceColon rest with
      | none => none
      | some (a, b) => some (c :: a, b)

/-- `FromString`: trim, split on the first colon, parse the height in
base 10 and the id as hex. -/
def FromString (s : List Char) : Option Checkpoint :=
  match splitOnceColon (trimGo s) with
  | none => none
  | some (h, i) =>
    match parseUint64 h, HashFromString i with
    | some height, some id => some ⟨height, id⟩
    | _, _ => none

/-! ### Round-trip lemmas for the wire form -/

theorem decDigitChar_toNat : ∀ d < 10, (decDigitChar d).toNat = 48 + d := by decide

theorem digitVal_decDigitChar : ∀ d < 10, digitVal (decDigitChar d) = some d := by decide

theorem hexDigitVal_hexDigitChar : ∀ d < 16, hexDigitVal (hexDigitChar d) = some d := by decide

theorem hexDigitChar_not_cutset : ∀ d < 16, trimCutset (hexDigitChar d) = false := by decide

theorem hexDigitChar_ne_colon : ∀ d < 16, hexDigitChar d ≠ ':' := by decide

theorem natToDec_ne_nil (n : Nat) : natToDec n ≠ [] := by
  rw [natToDec]; split <;> simp

theorem natToDec_mem_digit (n : Nat) :
    ∀ c ∈ natToDec n, 48 ≤ c.toNat ∧ c.toNat ≤ 57 := by
  induction n using natToDec.induct with
  | case1 n h =>
    intro c hc
    rw [natToDec, dif_pos h] at hc
    rcases List.mem_singleton.mp hc with rfl
    rw [decDigitChar_toNat n h]; omega
  | case2 n h ih =>
    intro c hc
    rw [natToDec, dif_neg h] at hc
    rcases List.mem_append.mp hc with h1 | h2
    · exact ih c h1
    · rcases List.mem_singleton.mp h2 with rfl
      rw [decDigitChar_toNat (n % 10) (by omega)]; omega

theorem natToDec_not_cutset (n : Nat) : ∀ c ∈ natToDec n, trimCutset c = false := by
  intro c hc
  have := natToDec_mem_digit n c hc
  simp only [trimCutset, Bool.or_eq_false_iff, decide_eq_false_iff_not]
  omega

theorem natToDec_ne_colon (n : Nat) : ∀ c ∈ natToDec n, c ≠ ':' := by
  intro c hc heq
  have h1 := natToDec_mem_digit n c hc
  have h2 : (':').toNat = 58 := rfl
  rw [heq, h2] at h1
  omega

theorem hexEncode_not_cutset (bs : List Nat) : ∀ c ∈ hexEncode bs, trimCutset c = false := by
  induction bs with
  | nil => simp [hexEncode]
  | cons b rest ih =>
    intro c hc
    rw [hexEncode] at hc
    rcases hc with _ | ⟨_, hc⟩
    · exact hexDigitChar_not_cutset _ (by omega)
    · rcases hc with _ | ⟨_, hc⟩
      · exact hexDigitChar_not_cutset _ (by omega)
      · exact ih c hc

theorem parseDecCore_concat (s : List Char) (c : Char) :
    parseDecCore (s ++ [c]) =
      (parseDecCore s).bind fun a => (digitVal c).map fun d => a * 10 + d := by
  simp [parseDecCore, List.foldl_append]

theorem parseDecCore_natToDec (n : Nat) : parseDecCore (natToDec n) = some n := by
  induction n using natToDec.induct with
  | case1 n h =>
    rw [natToDec, dif_pos h]
    simp [parseDecCore, digitVal_decDigitChar n h]
  | case2 n h ih =>
    rw [natToDec, dif_neg h, parseDecCore_concat, ih,
      digitVal_decDigitChar (n % 10) (by omega)]
    have hd : n / 10 * 10 + n % 10 = n := by omega
    simp [hd]

theorem natToDec_not_empty (n : Nat) : (natToDec n).isEmpty = false := by
  rw [natToDec]; split <;> simp

theorem parseUint64_natToDec (n : Nat) (h : n < 2 ^ 64) :
    parseUint64 (natToDec n) = some n := by
  rw [parseUint64, natToDec_not_empty, parseDecCore_natToDec]
  simp only [Bool.false_eq_true, if_false, if_pos h]

theorem hexDecode_cons2 (hi lo : Char) (rest : List Char) :
    hexDecode (hi :: lo :: rest) =
      match hexDigitVal hi, hexDigitVal lo, hexDecode rest with
      | some h, some l, some bs => some ((h * 16 + l) :: bs)
      | _, _, _ => none := rfl

theorem hexDecode_hexEncode (bs : List Nat) (h : ∀ b ∈ bs, b < 256) :
    hexDecode (hexEncode bs) = some bs := by
  induction bs with
  | nil => rfl
  | cons b rest ih =>
    have hb : b < 256 := h b (by simp)
    rw [hexEncode, hexDecode_cons2,
      hexDigitVal_hexDigitChar (b / 16 % 16) (by omega),
      hexDigitVal_hexDigitChar (b % 16) (by omega),
      ih (fun x hx => h x (List.mem_cons_of_mem b hx))]
    have hbv : b / 16 % 16 * 16 + b % 16 = b := by omega
    simp [hbv]

theorem hexEncode_length (bs : List Nat) : (hexEncode bs).length = 2 * bs.length := by
  induction bs with
  | nil => rfl
  | cons b rest ih => rw [hexEncode]; simp [ih]; omega

theorem dropWhile_all_false {α} (p : α → Bool) (l : List α)
    (h : ∀ x ∈ l, p x = false) : l.dropWhile p = l := by
  cases l with
  | nil => rfl
  | cons a t => simp [List.dropWhile_cons, h a (by simp)]

theorem trimGo_all_false (s : List Char) (h : ∀ c ∈ s, trimCutset c = false) :
    trimGo s = s := by
  unfold trimGo
  rw [dropWhile_all_false _ _ h,
    dropWhile_all_false _ _ (fun c hc => h c (List.mem_reverse.mp hc)),
    List.reverse_reverse]

theorem splitOnceColon_append (a b : List Char) (h : ∀ c ∈ a, c ≠ ':') :
    splitOnceColon (a ++ ':' :: b) = some (a, b) := by
  induction a with
  | nil => simp [splitOnceColon]
  | cons x xs ih =>
    have hx : ¬(x = ':') := h x (by simp)
    rw [List.cons_append, splitOnceColon, if_neg hx,
      ih (fun c hc => h c (List.mem_cons_of_mem x hc))]

/-- Claim C7: for every checkpoint whose height fits in 64 bits, whose id
holds 32 byte values, and whose id is not the zero hash, parsing the
formatted wire form gives back the same checkpoint:
`FromString(c.String()) = c`. -/
theorem C7_fromString_toWire (c : Checkpoint) (hh : c.Height < 2 ^ 64)
    (hlen : c.Id.length = HashSize) (hbytes : ∀ b ∈ c.Id, b < 256)
    (_hz : c.Id ≠ ZeroHash) :
    FromString (Checkpoint.toWire c) = some c := by
  have hall : ∀ ch ∈ natToDec c.Height ++ ':' :: hexEncode c.Id, trimCutset ch = false := by
    intro ch hch
    rcases List.mem_append.mp hch with h1 | h2
    · exact natToDec_not_cutset _ ch h1
    · rcases h2 with _ | ⟨_, h2⟩
      · rfl
      · exact hexEncode_not_cutset _ ch h2
  rw [FromString, Checkpoint.toWire, trimGo_all_false _ hall,
    splitOnceColon_append _ _ (natToDec_ne_colon c.Height)]
  dsimp only
  rw [parseUint64_natToDec c.Height hh, HashFromString, hexEncode_length, hlen,
    if_pos (by omega), hexDecode_hexEncode c.Id hbytes]

/-- Witness for C7 at a concrete checkpoint. -/
theorem C7_fromString_toWire_witness :
    FromString (Checkpoint.toWire ⟨123456, testHashA⟩) = some ⟨123456, testHashA⟩ :=
  C7_fromString_toWire ⟨123456, testHashA⟩ (by decide) (by decide) (by decide) (by decide)

/-! ## DNS names (`github.com/miekg/dns` helpers used by the server)

A fully-qualified domain name is modelled as its list of labels, most
significant last as written (`"a.b.example.org."` ↦
`[a, b, example, org]`); the root name `"."` is the empty list.  Labels
are byte strings (`List Char`). -/

abbrev Label := List Char

abbrev DnsName := List Label

/-- ASCII case folding of one byte, as miekg/dns `equal` does. -/
def lowerByte (n : Nat) : Nat := if 65 ≤ n ∧ n ≤ 90 then n + 32 else n

/-- Case-insensitive label comparison (miekg/dns `equal`). -/
def labelEq (a b : Label) : Bool :=
  a.map (fun c => lowerByte c.toNat) == b.map (fun c => lowerByte c.toNat)

/-- `dns.CountLabel`: the number of labels of a fully-qualified name,
the root excluded. -/
def CountLabel (n : DnsName) : Nat := n.length

/-- The run of case-insensitively equal labels at the front of two
reversed label lists. -/
def commonLabelsRev : List Label → List Label → Nat
  | a :: as, b :: bs => if labelEq a b then commonLabelsRev as bs + 1 else 0
  | _, _ => 0

/-- `dns.CompareDomainName`: how many labels two names share starting from
the right.  (miekg/dns returns 0 outright when either name is the root,
which coincides with the common-suffix count of an empty label list.) -/
def CompareDomainName (n1 n2 : DnsName) : Nat :=
  commonLabelsRev n1.reverse n2.reverse

/-! ## Resource records -/

def TypeSOA : Nat := 6
def TypeTXT : Nat := 16
def TypeRRSIG : Nat := 46
def TypeNSEC : Nat := 47
def TypeDNSKEY : Nat := 48
def TypeCDS : Nat := 59
def TypeCDNSKEY : Nat := 60
def TypeAXFR : Nat := 252
def ClassINET : Nat := 1
def OpcodeQuery : Nat := 0
def RcodeSuccess : Nat := 0
def RcodeNameError : Nat := 3
def RcodeRefused : Nat := 5
def RcodeBadVers : Nat := 16

/-- `dns.RR_Header`: the four header fields every RR of an RRset agrees
on.  `Ttl` carries a `uint32` value. -/
structure RRHeader where
  Name : DnsName
  Rrtype : Nat
  Class : Nat
  Ttl : Nat
deriving DecidableEq, Repr

/-- The record payloads this zone engine produces.  The RRSIG's raw
signature bytes (filled in by `sig.Sign`) are outside the model. -/
inductive RData where
  | soa (ns mbox : DnsName) (serial refresh retry expire minttl : Nat)
  | nsec (nextDomain : DnsName) (typeBitMap : List Nat)
  | txt (txt : List (List Char))
  | rrsig (typeCovered labels origTtl expiration inception keyTag : Nat)
      (signerName : DnsName) (algorithm : Nat)
  | other (tag : Nat)
deriving DecidableEq, Repr

structure RR where
  Hdr : RRHeader
  Rdata : RData
deriving DecidableEq, Repr

instance : Inhabited RR := ⟨⟨⟨[], 0, 0, 0⟩, RData.other 0⟩⟩

/-! ## Signed record store — `cmd/dns-checkpoints/dnssec.go` -/

/-- `SignedAnswer`: a record set plus the RRSIG covering it.  `Sig` is a
Go pointer (`*dns.RRSIG`), hence an `Option`: the two edge entries that
`Transfer` builds leave it nil. -/
structure SignedAnswer where
  RR : List MoneroHighway.RR
  Sig : Option MoneroHighway.RR
deriving DecidableEq, Repr, Inhabited

/-- The `Signer`'s mutable store: `records` is the `[math.MaxUint16+1]`
array of atomic pointers (only indices < 65536 are ever used), `soa` the
dedicated SOA slot. -/
structure Store where
  records : Nat → Option SignedAnswer
  soa : Option SignedAnswer

/-- The store with every slot empty (all pointers nil). -/
def Store.empty : Store := ⟨fun _ => none, none⟩

/-- `TTL(d)`: `uint32(d / time.Second)`.  Durations are modelled in whole
seconds (every duration this program builds is one), so only the `uint32`
truncation remains. -/
def TTLsec (d : Nat) : Nat := d % 2 ^ 32

/-- `ClockSkewRange = time.Second * 20`, in seconds. -/
def ClockSkewRange : Nat := 20

/-- Go's `uint32(x)` of an `int64` value: the low 32 bits. -/
def toUint32 (i : Int) : Nat := (i % (2 ^ 32 : Int)).toNat

/-- What `Signer.sign` reads of a DNSKEY: its header name and class, the
algorithm code and the key tag. -/
structure DNSKeyInfo where
  Name : DnsName
  Class : Nat
  Algorithm : Nat
  KeyTag : Nat
deriving DecidableEq, Repr

/-- `SignerOptions`, with the duration fields in whole seconds. -/
structure SignerOptions where
  RecordTTL : Nat
  AuthorityTTL : Nat
  RefreshTTL : Nat
  SignatureTTL : Nat
  SignatureBackdate : Nat
  Zone : DnsName
  Mailbox : DnsName
  Nameservers : List DnsName
deriving DecidableEq, Repr

/-- The `Signer`'s immutable key material and options (the store is passed
separately). -/
structure Signer where
  opts : SignerOptions
  zsk : DNSKeyInfo
  ksk : DNSKeyInfo
deriving DecidableEq, Repr

def Signer.Zone (s : Signer) : DnsName := s.opts.Zone

/-- `Signer.ZoneLabels`: `dns.SplitDomainName(zone)`, i.e. the zone's
label list. -/
def Signer.ZoneLabels (s : Signer) : List Label := s.opts.Zone

/-- The key-selection switch of `Signer.sign`: DNSKEY/CDNSKEY/CDS RRsets
are signed with the KSK, everything else with the ZSK. -/
def Signer.signKey (s : Signer) (rtype : Nat) : DNSKeyInfo :=
  if rtype = TypeDNSKEY ∨ rtype = TypeCDNSKEY ∨ rtype = TypeCDS then s.ksk else s.zsk

/-- `Signer.sign`: builds the RRSIG for an RRset at time `now` (unix
seconds).  `none` models the panic on an empty slice (`rr[0]`); the
cryptographic `sig.Sign` call is outside the model. -/
def Signer.sign (s : Signer) (rr : List RR) (now : Int) : Option RR :=
  match rr with
  | [] => none
  | r0 :: _ =>
    let key := s.signKey r0.Hdr.Rrtype
    let sigTTL : Nat := max (r0.Hdr.Ttl * 2 % 2 ^ 32) (TTLsec s.opts.SignatureTTL)
    some {
      Hdr := { Name := key.Name, Rrtype := TypeRRSIG, Class := key.Class, Ttl := r0.Hdr.Ttl },
      Rdata := RData.rrsig r0.Hdr.Rrtype (CountLabel r0.Hdr.Name % 256) r0.Hdr.Ttl
        (toUint32 (now + (sigTTL : Int) + (ClockSkewRange : Int)))
        (toUint32 (now - (s.opts.SignatureBackdate : Int)))
        key.KeyTag key.Name key.Algorithm }

/-- `Signer.SOA`: the SOA regenerated on each signing cycle. -/
def Signer.SOA (s : Signer) (now : Int) : RR :=
  { Hdr := { Name := s.Zone, Rrtype := TypeSOA, Class := ClassINET, Ttl := TTLsec s.opts.AuthorityTTL },
    Rdata := RData.soa s.opts.Nameservers.headI s.opts.Mailbox (toUint32 now)
      (TTLsec s.opts.RefreshTTL) (TTLsec (s.opts.RefreshTTL / 2))
      (TTLsec (min (s.opts.RefreshTTL * 100) s.opts.AuthorityTTL))
      (TTLsec (s.opts.RefreshTTL / 2)) }

/-- `Signer.Get`: SOA is served from its dedicated slot, everything else
from the type-indexed table. -/
def Store.Get (store : Store) (rtype : Nat) : Option SignedAnswer :=
  if rtype = TypeSOA then store.soa else store.records rtype

/-- The `for et, p := range s.records` filter of `Signer.updateNSEC`: a
type code enters the bitmap when its slot is occupied or it is one of
SOA, RRSIG, NSEC. -/
def nsecTypes (store : Store) : List Nat :=
  (List.range 65536).filter fun et =>
    (store.records et).isSome || et == TypeSOA || et == TypeRRSIG || et == TypeNSEC

/-- `Signer.updateNSEC`: rebuilds the apex NSEC (owner = apex,
NextDomain = apex, bitmap = `nsecTypes`), signs it and stores it in the
NSEC slot.  `none` propagates a signing error. -/
def Signer.updateNSEC (s : Signer) (store : Store) (now : Int) : Option Store :=
  let rr : RR := {
    Hdr := { Name := s.Zone, Rrtype := TypeNSEC, Class := ClassINET, Ttl := TTLsec s.opts.AuthorityTTL },
    Rdata := RData.nsec s.Zone (nsecTypes store) }
  match s.sign [rr] now with
  | none => none
  | some sig => some { store with
      records := fun t => if t = TypeNSEC then some ⟨[rr], some sig⟩ else store.records t }

/-- `Signer.Transfer`: nothing when the SOA slot is empty; otherwise the
SOA record set (without its signature), every occupied slot in ascending
type-code order, and the SOA record set again. -/
def Store.Transfer (store : Store) : List SignedAnswer :=
  match store.soa with
  | none => []
  | some soa =>
    ⟨soa.RR, none⟩ :: (((List.range 65536).filterMap store.records) ++ [⟨soa.RR, none⟩])

/-! ## Query responder — `cmd/dns-checkpoints/server.go`

The handler builds one reply message (`msg.SetReply(r)` starts from
RCODE 0, non-authoritative, empty sections) or drops the request.  Reply
section entries are `Option RR`: `none` stands for a Go interface value
holding a nil `*dns.RRSIG` (as appended by the `Transfer` edge entries).
A nil-pointer dereference (`soa.RR` on a nil `*SignedAnswer`) is a Go
panic, modelled as `Except.error`.  UDP truncation (`msg.Truncate`) only
shortens the packed message and is outside the model. -/

structure Question where
  Name : DnsName
  Qtype : Nat
  Qclass : Nat
deriving DecidableEq, Repr

/-- The EDNS0 OPT data of a request (`r.IsEdns0()`). -/
structure Edns0 where
  Version : Nat
  DOBit : Bool
  UDPSize : Nat
deriving DecidableEq, Repr

structure Reply where
  Rcode : Nat
  Authoritative : Bool
  Answer : List (Option RR)
  Ns : List (Option RR)
deriving DecidableEq, Repr

instance exceptDecEq {ε α : Type} [DecidableEq ε] [DecidableEq α] :
    DecidableEq (Except ε α) := fun x y =>
  match x, y with
  | .ok a, .ok b =>
    if h : a = b then isTrue (by rw [h]) else isFalse (by intro he; cases he; exact h rfl)
  | .error a, .error b =>
    if h : a = b then isTrue (by rw [h]) else isFalse (by intro he; cases he; exact h rfl)
  | .ok _, .error _ => isFalse (by intro h; cases h)
  | .error _, .ok _ => isFalse (by intro h; cases h)

/-- The AXFR streaming loop: for each `Transfer()` entry, append its
records, then its `Sig` ("always send DNSSEC records here"). -/
def axfrAnswers : List SignedAnswer → List (Option RR)
  | [] => []
  | a :: rest => a.RR.map some ++ a.Sig :: axfrAnswers rest

/-- The four authority-section appends of the DO=1 NODATA / NXDOMAIN
branches, after both `Get` results were dereferenced. -/
def authoritySection (soa nsec : SignedAnswer) : List (Option RR) :=
  soa.RR.map some ++ soa.Sig :: nsec.RR.map some ++ [nsec.Sig]

/-- The reply state `msg.SetReply(r)` starts from: RCODE 0 (NOERROR),
not authoritative, empty sections. -/
def replyZero : Reply :=
  { Rcode := RcodeSuccess, Authoritative := false, Answer := [], Ns := [] }

/-- The `for _, q := range r.Question` loop of `RequestHandler` (second,
label-classifying version): stops at the first matching question;
questions whose class is not IN or whose common-label count with the zone
is below the zone's label count are skipped. -/
def answerQuestions (zone : DnsName) (store : Store) (handleAXFR : Bool)
    (isDNSSEC : Bool) : List Question → Reply → Except (List Char) Reply
  | [], msg => .ok msg
  | q :: rest, msg =>
    if q.Qclass = ClassINET ∧ CompareDomainName q.Name zone = zone.length then
      if CountLabel q.Name = zone.length then
        let msg := { msg with Authoritative := true }
        match Store.Get store q.Qtype with
        | some answer =>
          .ok { msg with Answer :=
            msg.Answer ++ answer.RR.map some ++ (if isDNSSEC then [answer.Sig] else []) }
        | none =>
          if q.Qtype = TypeAXFR ∧ handleAXFR then
            .ok { msg with Answer := msg.Answer ++ axfrAnswers (Store.Transfer store) }
          else if isDNSSEC then
            match Store.Get store TypeSOA with
            | none => .error ('n' :: 'i' :: 'l' :: [])
            | some soa =>
              match Store.Get store TypeNSEC with
              | none => .error ('n' :: 'i' :: 'l' :: [])
              | some nsec =>
                .ok { msg with Ns := msg.Ns ++ authoritySection soa nsec }
          else .ok msg
      else if CountLabel q.Name > zone.length then
        let msg := { msg with Authoritative := true, Rcode := RcodeNameError }
        if isDNSSEC then
          match Store.Get store TypeSOA with
          | none => .error ('n' :: 'i' :: 'l' :: [])
          | some soa =>
            match Store.Get store TypeNSEC with
            | none => .error ('n' :: 'i' :: 'l' :: [])
            | some nsec =>
              .ok { msg with Ns := msg.Ns ++ authoritySection soa nsec }
        else .ok msg
      else
        .ok { msg with Rcode := RcodeRefused }
    else answerQuestions zone store handleAXFR isDNSSEC rest msg

/-- `RequestHandler`: drop (`none`) when the question section is empty or
the opcode is not QUERY; reply BADVERS for EDNS0 version ≠ 0; otherwise
run the question loop with the DO bit from the request's OPT. -/
def RequestHandler (signer : Signer) (store : Store) (_udp handleAXFR : Bool)
    (_udpBufferSize : Nat) (opcode : Nat) (edns : Option Edns0)
    (qs : List Question) : Option (Except (List Char) Reply) :=
  if qs.length = 0 ∨ opcode ≠ OpcodeQuery then none
  else
    let msg : Reply := replyZero
    match edns with
    | some e =>
      if e.Version ≠ 0 then some (.ok { msg with Rcode := RcodeBadVers })
      else some (answerQuestions signer.Zone store handleAXFR e.DOBit qs msg)
    | none => some (answerQuestions signer.Zone store handleAXFR false qs msg)

/-! ## Server wiring — `cmd/dns-checkpoints/main.go`

The TCP server is built with `RequestHandler(signer, false, *axfr, …)` and
the UDP server with `RequestHandler(signer, true, false, …)`: AXFR is
never enabled on the UDP transport. -/

/-- The `handleAXFR` argument of the TCP server's handler: the `-axfr`
flag. -/
def tcpHandleAXFR (axfrFlag : Bool) : Bool := axfrFlag

/-- The `handleAXFR` argument of the UDP server's handler: always
`false`. -/
def udpHandleAXFR : Bool := false

/-! ## Mutation API — the HTTP handler in `cmd/dns-checkpoints/main.go` -/

/-- What the HTTP mutation handler produced: the status code written, the
TXT RRset handed to `signer.Add` (empty when nothing was added), and the
delay in seconds of the deferred background NOTIFY-plus-state-write
goroutine (`none` when none was scheduled). -/
structure ApiResponse where
  status : Nat
  addedTxt : List RR
  notifyDelaySeconds : Option Nat
deriving DecidableEq, Repr

def postMethod : List Char := 'P' :: 'O' :: 'S' :: 'T' :: []

/-- The mutation API handler: 405 for non-POST; for POST the deferred
notify/state goroutine (5-second sleep) is registered before the `txt`
values are parsed, empty values are filtered, and the response is 200
when at least one TXT record was built, else 400. -/
def mutationHandler (zone : DnsName) (recordTTL : Nat) (method : List Char)
    (txtValues : List (List Char)) : ApiResponse :=
  if method ≠ postMethod then { status := 405, addedTxt := [], notifyDelaySeconds := none }
  else
    let txt : List RR := (txtValues.filter fun e => !e.isEmpty).map fun e =>
      { Hdr := { Name := zone, Rrtype := TypeTXT, Class := ClassINET, Ttl := TTLsec recordTTL },
        Rdata := RData.txt [e] }
    if 0 < txt.length then { status := 200, addedTxt := txt, notifyDelaySeconds := some 5 }
    else { status := 400, addedTxt := [], notifyDelaySeconds := some 5 }

/-! ## Chain walker — `cmd/checkpointer/monerod.go` -/

/-- A block header as the checkpointer keeps it; hash ids are abstracted
to `Nat`. -/
structure BlockHeader where
  Height : Nat
  Id : Nat
  PreviousId : Nat
deriving DecidableEq, Repr

/-- Go `uint64` subtraction with wraparound (operands are uint64 values,
i.e. < 2^64). -/
def u64sub (a b : Nat) : Nat := (a + 2 ^ 64 - b % 2 ^ 64) % 2 ^ 64

/-- `Daemon.Walk`: walk parent links while the current height and the
remaining limit are positive.  `lookup` models `HeaderById` (cache or
RPC); the callback threads its captured state explicitly and returns
`false` to stop.  Errors: a failed header fetch, or the defensive
`parent.Height != tip.Height-1` check. -/
def Walk {σ : Type} (lookup : Nat → Option BlockHeader) (tip : BlockHeader)
    (limit : Nat) (s : σ) (each : σ → BlockHeader → σ × Bool) :
    Except (List Char) σ :=
  if 0 < tip.Height ∧ 0 < limit then
    match lookup tip.PreviousId with
    | none => .error ('r' :: 'p' :: 'c' :: [])
    | some parent =>
      if parent.Height ≠ u64sub tip.Height 1 then
        .error ('m' :: 'i' :: 's' :: 'm' :: 'a' :: 't' :: 'c' :: 'h' :: [])
      else
        let r := each s parent
        if r.2 = false then .ok r.1
        else Walk lookup parent (limit - 1) r.1 each
  else .ok s
  termination_by limit
  decreasing_by omega

/-- `Daemon.HeaderAtDepth`: depth 0 returns the tip itself; otherwise walk
up to `depth` parents, capturing the first one whose height equals
`tip.Height - depth` (uint64 arithmetic).  The captured
`deepHeader` starts as nil. -/
def HeaderAtDepth (lookup : Nat → Option BlockHeader) (tip : BlockHeader)
    (depth : Nat) : Except (List Char) (Option BlockHeader) :=
  if depth = 0 then .ok (some tip)
  else Walk lookup tip depth none fun s h =>
    if h.Height = u64sub tip.Height depth then (some h, false) else (s, true)

/-! ## Concrete fixtures for evaluations and witnesses -/

/-- The zone `example.org.` as a label list. -/
def zoneExample : DnsName := [['e', 'x', 'a', 'm', 'p', 'l', 'e'], ['o', 'r', 'g']]

def signerExample : Signer :=
  { opts := { RecordTTL := 300, AuthorityTTL := 86400, RefreshTTL := 60,
              SignatureTTL := 3600, SignatureBackdate := 86400,
              Zone := zoneExample, Mailbox := zoneExample, Nameservers := [zoneExample] },
    zsk := ⟨zoneExample, ClassINET, 15, 100⟩,
    ksk := ⟨zoneExample, ClassINET, 15, 101⟩ }

def soaRRExample : RR :=
  ⟨⟨zoneExample, TypeSOA, ClassINET, 86400⟩, RData.soa zoneExample zoneExample 1 60 30 6000 30⟩

def sigRRExample : RR :=
  ⟨⟨zoneExample, TypeRRSIG, ClassINET, 300⟩, RData.rrsig TypeTXT 2 300 0 0 100 zoneExample 15⟩

def txtRRExample : RR :=
  ⟨⟨zoneExample, TypeTXT, ClassINET, 300⟩, RData.txt [['a']]⟩

def nsecRRExample : RR :=
  ⟨⟨zoneExample, TypeNSEC, ClassINET, 86400⟩, RData.nsec zoneExample [TypeSOA, TypeRRSIG, TypeNSEC]⟩

def soaAnsExample : SignedAnswer := ⟨[soaRRExample], some sigRRExample⟩

def txtAnsExample : SignedAnswer := ⟨[txtRRExample], some sigRRExample⟩

def nsecAnsExample : SignedAnswer := ⟨[nsecRRExample], some sigRRExample⟩

/-- A store with the SOA slot and one TXT slot populated. -/
def storeTxtExample : Store :=
  ⟨fun t => if t = TypeTXT then some txtAnsExample else none, some soaAnsExample⟩

/-- A store with the SOA slot, a TXT slot and the NSEC slot populated. -/
def storeFullExample : Store :=
  ⟨fun t => if t = TypeTXT then some txtAnsExample
    else if t = TypeNSEC then some nsecAnsExample else none, some soaAnsExample⟩

/-- An off-zone question: `other.com.` TXT IN against zone
`example.org.`. -/
def qOffZone : Question := ⟨[['o', 't', 'h', 'e', 'r'], ['c', 'o', 'm']], TypeTXT, ClassINET⟩

/-! ## Claim C1 — off-zone queries -/

theorem commonLabelsRev_le_left (a b : List Label) : commonLabelsRev a b ≤ a.length := by
  induction a generalizing b with
  | nil => cases b <;> simp [commonLabelsRev]
  | cons x xs ih =>
    cases b with
    | nil => simp [commonLabelsRev]
    | cons y ys =>
      rw [commonLabelsRev]
      split
      · have := ih ys
        simp only [List.length_cons]
        omega
      · simp

theorem compareDomainName_le_countLabel (n1 n2 : DnsName) :
    CompareDomainName n1 n2 ≤ CountLabel n1 := by
  have := commonLabelsRev_le_left n1.reverse n2.reverse
  rw [List.length_reverse] at this
  exact this

/-- The `msg.SetRcode(r, dns.RcodeRefused)` branch of the second
`RequestHandler` requires a question sharing all `zone.length` labels with
the zone yet having fewer labels than the zone — impossible, since a name
shares at most `CountLabel q.Name` labels.  Hence the question loop never
produces REFUSED. -/
theorem answerQuestions_rcode_ne_refused (zone : DnsName) (store : Store)
    (handleAXFR isDNSSEC : Bool) :
    ∀ qs msg, msg.Rcode ≠ RcodeRefused →
      ∀ rep, answerQuestions zone store handleAXFR isDNSSEC qs msg = .ok rep →
        rep.Rcode ≠ RcodeRefused := by
  intro qs
  induction qs with
  | nil =>
    intro msg hmsg rep hrep
    rw [answerQuestions] at hrep
    cases hrep
    exact hmsg
  | cons q rest ih =>
    intro msg hmsg rep hrep
    rw [answerQuestions] at hrep
    by_cases hcond : q.Qclass = ClassINET ∧ CompareDomainName q.Name zone = zone.length
    · rw [if_pos hcond] at hrep
      by_cases heq : CountLabel q.Name = zone.length
      · rw [if_pos heq] at hrep
        rcases hget : Store.Get store q.Qtype with _ | answer
        · simp only [hget] at hrep
          by_cases haxfr : q.Qtype = TypeAXFR ∧ handleAXFR = true
          · rw [if_pos haxfr] at hrep
            cases hrep
            exact hmsg
          · rw [if_neg haxfr] at hrep
            by_cases hdo : isDNSSEC = true
            · rw [if_pos hdo] at hrep
              rcases hs : Store.Get store TypeSOA with _ | soa
              · simp only [hs] at hrep
                cases hrep
              · simp only [hs] at hrep
                rcases hn : Store.Get store TypeNSEC with _ | nsec
                · simp only [hn] at hrep
                  cases hrep
                · simp only [hn] at hrep
                  cases hrep
                  exact hmsg
            · rw [if_neg hdo] at hrep
              cases hrep
              exact hmsg
        · simp only [hget] at hrep
          cases hrep
          exact hmsg
      · rw [if_neg heq] at hrep
        by_cases hgt : CountLabel q.Name > zone.length
        · rw [if_pos hgt] at hrep
          by_cases hdo : isDNSSEC = true
          · rw [if_pos hdo] at hrep
            rcases hs : Store.Get store TypeSOA with _ | soa
            · simp only [hs] at hrep
              cases hrep
            · simp only [hs] at hrep
              rcases hn : Store.Get store TypeNSEC with _ | nsec
              · simp only [hn] at hrep
                cases hrep
              · simp only [hn] at hrep
                cases hrep
                simp [RcodeNameError, RcodeRefused]
          · rw [if_neg hdo] at hrep
            cases hrep
            simp [RcodeNameError, RcodeRefused]
        · -- the REFUSED branch: common = zone.length yet fewer labels than
          -- the zone, contradicting compareDomainName_le_countLabel
          have hle := compareDomainName_le_countLabel q.Name zone
          rw [hcond.2] at hle
          omega
    · rw [if_neg hcond] at hrep
      exact ih msg hmsg rep hrep

/-- Claim C1 (the code diverges): the off-zone question `other.com.` with
QCLASS=IN against zone `example.org.` shares 0 < 2 labels with the zone,
and the reply is NOERROR (RCODE 0), non-authoritative and empty — not
REFUSED (RCODE 5). -/
theorem C1_offzone_reply_noerror :
    CompareDomainName qOffZone.Name signerExample.Zone = 0 ∧
    signerExample.Zone.length = 2 ∧
    RequestHandler signerExample Store.empty false false 4096 OpcodeQuery none [qOffZone] =
      some (Except.ok replyZero) ∧
    replyZero.Rcode = RcodeSuccess ∧ RcodeSuccess ≠ RcodeRefused := by decide

/-! ## Claim C2 — AXFR streaming -/

theorem axfrAnswers_mem_sig (l : List SignedAnswer) :
    ∀ a ∈ l, a.Sig ∈ axfrAnswers l := by
  induction l with
  | nil => simp
  | cons x xs ih =>
    intro a ha
    rw [axfrAnswers]
    rcases List.mem_cons.mp ha with rfl | ha
    · exact List.mem_append_right _ (List.mem_cons_self _ _)
    · exact List.mem_append_right _ (List.mem_cons_of_mem _ (ih a ha))

/-- Claim C2, amended: for an apex AXFR query whose type slot is absent,
the responder streams `Transfer()` into Answer when AXFR is permitted (the
result does not depend on the DO bit), every streamed entry's `Sig` is
appended unconditionally, and with the UDP wiring (`handleAXFR = false`,
as `main` constructs the UDP server) nothing is ever streamed. -/
theorem C2_axfr_streams_rrsigs_unconditionally (signer : Signer) (store : Store)
    (dobit : Bool) (q : Question)
    (hc : q.Qclass = ClassINET)
    (hz : CompareDomainName q.Name signer.Zone = signer.Zone.length)
    (hn : CountLabel q.Name = signer.Zone.length)
    (ht : q.Qtype = TypeAXFR)
    (habsent : Store.Get store TypeAXFR = none) :
    (answerQuestions signer.Zone store (tcpHandleAXFR true) dobit [q] replyZero =
      .ok { replyZero with Authoritative := true, Answer := axfrAnswers (Store.Transfer store) }) ∧
    (∀ a ∈ Store.Transfer store, a.Sig ∈ axfrAnswers (Store.Transfer store)) ∧
    (∀ rep, answerQuestions signer.Zone store udpHandleAXFR dobit [q] replyZero = .ok rep →
      rep.Answer = []) := by
  refine ⟨?_, axfrAnswers_mem_sig _, ?_⟩
  · rw [answerQuestions, if_pos ⟨hc, hz⟩, if_pos hn, ht, habsent]
    dsimp only
    rw [if_pos (⟨rfl, rfl⟩ : TypeAXFR = TypeAXFR ∧ tcpHandleAXFR true = true)]
    rfl
  · intro rep hrep
    rw [answerQuestions, if_pos ⟨hc, hz⟩, if_pos hn, ht, habsent] at hrep
    dsimp only at hrep
    rw [if_neg (by simp [udpHandleAXFR])] at hrep
    by_cases hdo : dobit = true
    · rw [if_pos hdo] at hrep
      rcases hs : Store.Get store TypeSOA with _ | soa
      · simp only [hs] at hrep
        cases hrep
      · simp only [hs] at hrep
        rcases hns : Store.Get store TypeNSEC with _ | nsec
        · simp only [hns] at hrep
          cases hrep
        · simp only [hns] at hrep
          cases hrep
          rfl
    · rw [if_neg hdo] at hrep
      cases hrep
      rfl

/-- An apex AXFR question against the example zone. -/
def qAXFRExample : Question := ⟨zoneExample, TypeAXFR, ClassINET⟩

/-- Witness for C2 at the example signer and TXT store with the DO bit
clear. -/
theorem C2_axfr_streams_rrsigs_unconditionally_witness :
    (qAXFRExample.Qclass = ClassINET ∧
      CompareDomainName qAXFRExample.Name signerExample.Zone = signerExample.Zone.length ∧
      CountLabel qAXFRExample.Name = signerExample.Zone.length ∧
      qAXFRExample.Qtype = TypeAXFR ∧
      Store.Get storeTxtExample TypeAXFR = none) ∧
    ((answerQuestions signerExample.Zone storeTxtExample (tcpHandleAXFR true) false
        [qAXFRExample] replyZero =
      .ok { replyZero with Authoritative := true, Answer := axfrAnswers (Store.Transfer storeTxtExample) }) ∧
    (∀ a ∈ Store.Transfer storeTxtExample,
      a.Sig ∈ axfrAnswers (Store.Transfer storeTxtExample)) ∧
    (∀ rep, answerQuestions signerExample.Zone storeTxtExample udpHandleAXFR false
        [qAXFRExample] replyZero = .ok rep → rep.Answer = [])) :=
  ⟨⟨rfl, rfl, rfl, rfl, rfl⟩,
    C2_axfr_streams_rrsigs_unconditionally signerExample storeTxtExample false
      qAXFRExample rfl rfl rfl rfl rfl⟩

/-- `filterMap` over `List.range` of a single-slot lookup: only index `k`
(when in range) contributes. -/
theorem filterMap_range_single {α} (v : α) (k n : Nat) :
    (List.range n).filterMap (fun t => if t = k then some v else none) =
      if k < n then [v] else [] := by
  induction n with
  | zero => simp
  | succ n ih =>
    rw [List.range_succ, List.filterMap_append, ih]
    by_cases h : n = k
    · subst h
      rw [if_neg (Nat.lt_irrefl n), if_pos (Nat.lt_succ_self n)]
      simp
    · by_cases hk : k < n
      · rw [if_pos hk, if_pos (Nat.lt_succ_of_lt hk)]
        simp [h]
      · rw [if_neg hk, if_neg (by omega)]
        simp [h]

/-- The `Transfer()` output of the example store: SOA edge, the TXT slot,
SOA edge. -/
theorem transfer_storeTxtExample :
    Store.Transfer storeTxtExample =
      ⟨soaAnsExample.RR, none⟩ :: ([txtAnsExample] ++ [⟨soaAnsExample.RR, none⟩]) := by
  have h : (List.range 65536).filterMap storeTxtExample.records = [txtAnsExample] := by
    have h2 := filterMap_range_single txtAnsExample TypeTXT 65536
    rw [if_pos (by decide)] at h2
    exact h2
  rw [show Store.Transfer storeTxtExample =
    ⟨soaAnsExample.RR, none⟩ ::
      ((List.range 65536).filterMap storeTxtExample.records ++ [⟨soaAnsExample.RR, none⟩])
    from rfl, h]

/-- Counterexample to C2 as stated: a TCP AXFR request with EDNS0 present
and the DO bit clear still gets every covering RRSIG appended to the
streamed RRsets (`sigRRExample`, an RRSIG record, appears in the
Answer). -/
theorem C2_axfr_do0_appends_rrsig :
    RequestHandler signerExample storeTxtExample false (tcpHandleAXFR true) 4096 OpcodeQuery
      (some { Version := 0, DOBit := false, UDPSize := 4096 }) [qAXFRExample] =
      some (Except.ok { Rcode := RcodeSuccess, Authoritative := true,
                        Answer := [some soaRRExample, none, some txtRRExample, some sigRRExample,
                                   some soaRRExample, none],
                        Ns := [] }) ∧
    some sigRRExample ∈ [some soaRRExample, none, some txtRRExample, some sigRRExample,
                         some soaRRExample, none] ∧
    sigRRExample.Hdr.Rrtype = TypeRRSIG := by
  refine ⟨?_, by decide, rfl⟩
  rw [RequestHandler, if_neg (by decide)]
  dsimp only
  rw [if_neg (by decide)]
  rw [answerQuestions, if_pos (by decide), if_pos (by decide),
    show Store.Get storeTxtExample qAXFRExample.Qtype = none from rfl]
  dsimp only
  rw [if_pos (by decide), transfer_storeTxtExample]
  decide

/-! ## Claim C3 — the mutation API -/

/-- Claim C3: the mutation API replies 200 exactly when the method is
POST and a non-empty `txt` value was provided, 400 for a POST with none,
405 for non-POST; and whenever the mutation succeeded (status 200) the
deferred background NOTIFY-plus-state-write was scheduled with its
5-second delay. -/
theorem C3_mutation_api_statuses (zone : DnsName) (recordTTL : Nat)
    (method : List Char) (txtValues : List (List Char)) :
    ((mutationHandler zone recordTTL method txtValues).status = 200 ↔
      method = postMethod ∧ ∃ e ∈ txtValues, e ≠ []) ∧
    (method = postMethod ∧ (∀ e ∈ txtValues, e = []) →
      (mutationHandler zone recordTTL method txtValues).status = 400) ∧
    (method ≠ postMethod → (mutationHandler zone recordTTL method txtValues).status = 405) ∧
    ((mutationHandler zone recordTTL method txtValues).status = 200 →
      (mutationHandler zone recordTTL method txtValues).notifyDelaySeconds = some 5) := by
  by_cases hm : method = postMethod
  · rw [mutationHandler, if_neg (by simp [hm])]
    have hlen : (0 < (txtValues.filter fun e => !e.isEmpty).length) ↔
        ∃ e ∈ txtValues, e ≠ [] := by
      rw [List.length_pos]
      constructor
      · intro h
        rcases List.exists_mem_of_ne_nil _ h with ⟨a, ha⟩
        have := List.mem_filter.mp ha
        exact ⟨a, this.1, by simpa using this.2⟩
      · rintro ⟨e, he, hne⟩
        intro hnil
        have : e ∈ txtValues.filter fun e => !e.isEmpty :=
          List.mem_filter.mpr ⟨he, by simpa using hne⟩
        rw [hnil] at this
        cases this
    dsimp only
    rw [List.length_map]
    by_cases hp : 0 < (txtValues.filter fun e => !e.isEmpty).length
    · rw [if_pos hp]
      refine ⟨⟨fun _ => ⟨hm, hlen.mp hp⟩, fun _ => rfl⟩, ?_, ?_, fun _ => rfl⟩
      · rintro ⟨-, hall⟩
        rcases hlen.mp hp with ⟨e, he, hne⟩
        exact absurd (hall e he) hne
      · intro h
        exact absurd hm h
    · rw [if_neg hp]
      refine ⟨⟨fun h => (by cases h), fun h => absurd (hlen.mpr h.2) hp⟩,
        fun _ => rfl, fun h => absurd hm h, fun h => (by cases h)⟩
  · rw [mutationHandler, if_pos (by simpa using hm)]
    exact ⟨⟨fun h => (by cases h), fun h => absurd h.1 hm⟩,
      fun h => absurd h.1 hm, fun _ => rfl, fun h => (by cases h)⟩

/-! ## Claim C5 — RRSIG construction -/

theorem toUint32_of_range (i : Int) (h0 : 0 ≤ i) (h1 : i < 2 ^ 32) :
    ((toUint32 i : Nat) : Int) = i := by
  rw [toUint32, Int.emod_eq_of_lt h0 (by exact_mod_cast h1), Int.toNat_of_nonneg h0]

/-- Claim C5: for every RRset signed at unix time `now` (in the range
where the `uint32` conversions do not wrap), the produced RRSIG has
`Inception = now − SignatureBackdate`,
`Expiration = now + max(SignatureTTL, 2·header.TTL) + ClockSkewRange`,
hence `Inception ≤ now − SignatureBackdate + 1` and
`Expiration ≥ now + SignatureTTL + 20`; its `Labels` equals the owner
name's label count and `OrigTtl` equals the RRset's TTL (the third
`RData.rrsig` argument). -/
theorem C5_rrsig_fields_and_window (s : Signer) (r0 : RR) (rest : List RR) (now : Int)
    (h2ttl : r0.Hdr.Ttl * 2 < 2 ^ 32)
    (hsig : s.opts.SignatureTTL < 2 ^ 32)
    (hlab : CountLabel r0.Hdr.Name < 256)
    (_hnow0 : 0 ≤ now)
    (hinc0 : 0 ≤ now - (s.opts.SignatureBackdate : Int))
    (hexp : now + ((max s.opts.SignatureTTL (2 * r0.Hdr.Ttl) : Nat) : Int) + 20 < 2 ^ 32) :
    ∃ exp inc : Nat,
      s.sign (r0 :: rest) now = some
        { Hdr := { Name := (s.signKey r0.Hdr.Rrtype).Name, Rrtype := TypeRRSIG,
                   Class := (s.signKey r0.Hdr.Rrtype).Class, Ttl := r0.Hdr.Ttl },
          Rdata := RData.rrsig r0.Hdr.Rrtype (CountLabel r0.Hdr.Name) r0.Hdr.Ttl exp inc
            (s.signKey r0.Hdr.Rrtype).KeyTag (s.signKey r0.Hdr.Rrtype).Name
            (s.signKey r0.Hdr.Rrtype).Algorithm } ∧
      (inc : Int) = now - (s.opts.SignatureBackdate : Int) ∧
      (exp : Int) = now + ((max s.opts.SignatureTTL (2 * r0.Hdr.Ttl) : Nat) : Int) +
        (ClockSkewRange : Int) ∧
      (inc : Int) ≤ now - (s.opts.SignatureBackdate : Int) + 1 ∧
      now + (s.opts.SignatureTTL : Int) + 20 ≤ (exp : Int) := by
  have hmax : max (r0.Hdr.Ttl * 2 % 2 ^ 32) (TTLsec s.opts.SignatureTTL) =
      max s.opts.SignatureTTL (2 * r0.Hdr.Ttl) := by
    rw [TTLsec, Nat.mod_eq_of_lt h2ttl, Nat.mod_eq_of_lt hsig, Nat.max_comm, Nat.mul_comm]
  have hmaxge : s.opts.SignatureTTL ≤ max s.opts.SignatureTTL (2 * r0.Hdr.Ttl) :=
    Nat.le_max_left _ _
  have hexp0 : 0 ≤ now + ((max s.opts.SignatureTTL (2 * r0.Hdr.Ttl) : Nat) : Int) +
      (ClockSkewRange : Int) := by
    have : (0 : Int) ≤ ((max s.opts.SignatureTTL (2 * r0.Hdr.Ttl) : Nat) : Int) :=
      Int.natCast_nonneg _
    omega
  have hexplt : now + ((max s.opts.SignatureTTL (2 * r0.Hdr.Ttl) : Nat) : Int) +
      (ClockSkewRange : Int) < 2 ^ 32 := by
    have h20 : ((ClockSkewRange : Nat) : Int) = 20 := rfl
    omega
  have hinclt : now - (s.opts.SignatureBackdate : Int) < 2 ^ 32 := by
    have : (0 : Int) ≤ ((max s.opts.SignatureTTL (2 * r0.Hdr.Ttl) : Nat) : Int) :=
      Int.natCast_nonneg _
    have hb : (0 : Int) ≤ (s.opts.SignatureBackdate : Int) := Int.natCast_nonneg _
    omega
  have hexpval := toUint32_of_range _ hexp0 hexplt
  have hincval := toUint32_of_range _ hinc0 hinclt
  refine ⟨toUint32 (now + ((max s.opts.SignatureTTL (2 * r0.Hdr.Ttl) : Nat) : Int) +
      (ClockSkewRange : Int)),
    toUint32 (now - (s.opts.SignatureBackdate : Int)), ?_, hincval, hexpval, ?_, ?_⟩
  · rw [Signer.sign]
    rw [hmax, Nat.mod_eq_of_lt hlab]
  · rw [hincval]
    omega
  · rw [hexpval]
    have hc : ((max s.opts.SignatureTTL (2 * r0.Hdr.Ttl) : Nat) : Int) ≥
        (s.opts.SignatureTTL : Int) := by exact_mod_cast hmaxge
    have h20 : ((ClockSkewRange : Nat) : Int) = 20 := rfl
    omega

/-- Witness for C5: the example ZSK signer, a TXT RRset with TTL 300,
signed at unix time 1700000000. -/
theorem C5_rrsig_fields_and_window_witness :
    (txtRRExample.Hdr.Ttl * 2 < 2 ^ 32 ∧
      signerExample.opts.SignatureTTL < 2 ^ 32 ∧
      CountLabel txtRRExample.Hdr.Name < 256 ∧
      (0 : Int) ≤ 1700000000 ∧
      (0 : Int) ≤ 1700000000 - (signerExample.opts.SignatureBackdate : Int) ∧
      (1700000000 : Int) +
        ((max signerExample.opts.SignatureTTL (2 * txtRRExample.Hdr.Ttl) : Nat) : Int) + 20 <
        2 ^ 32) ∧
    (∃ exp inc : Nat,
      signerExample.sign (txtRRExample :: []) 1700000000 = some
        { Hdr := { Name := (signerExample.signKey txtRRExample.Hdr.Rrtype).Name,
                   Rrtype := TypeRRSIG,
                   Class := (signerExample.signKey txtRRExample.Hdr.Rrtype).Class,
                   Ttl := txtRRExample.Hdr.Ttl },
          Rdata := RData.rrsig txtRRExample.Hdr.Rrtype (CountLabel txtRRExample.Hdr.Name)
            txtRRExample.Hdr.Ttl exp inc
            (signerExample.signKey txtRRExample.Hdr.Rrtype).KeyTag
            (signerExample.signKey txtRRExample.Hdr.Rrtype).Name
            (signerExample.signKey txtRRExample.Hdr.Rrtype).Algorithm } ∧
      (inc : Int) = 1700000000 - (signerExample.opts.SignatureBackdate : Int) ∧
      (exp : Int) = 1700000000 +
        ((max signerExample.opts.SignatureTTL (2 * txtRRExample.Hdr.Ttl) : Nat) : Int) +
        (ClockSkewRange : Int) ∧
      (inc : Int) ≤ 1700000000 - (signerExample.opts.SignatureBackdate : Int) + 1 ∧
      (1700000000 : Int) + (signerExample.opts.SignatureTTL : Int) + 20 ≤ (exp : Int)) :=
  ⟨⟨by decide, by decide, by decide, by decide, by decide, by decide⟩,
    C5_rrsig_fields_and_window signerExample txtRRExample [] 1700000000
      (by decide) (by decide) (by decide) (by decide) (by decide) (by decide)⟩

/-! ## Claim C6 — NSEC regeneration -/

/-- Claim C6: after every NSEC regeneration the stored NSEC record has
owner and NextDomain both equal to the apex, and its TypeBitMap holds a
type code exactly when the (post-regeneration) store slot is occupied or
the code is SOA, RRSIG or NSEC, listed in ascending type-code order. -/
theorem C6_nsec_bitmap_exact (s : Signer) (store : Store) (now : Int) :
    ∃ sig newStore, s.updateNSEC store now = some newStore ∧
      newStore.records TypeNSEC = some
        ⟨[{ Hdr := { Name := s.Zone, Rrtype := TypeNSEC, Class := ClassINET,
                     Ttl := TTLsec s.opts.AuthorityTTL },
            Rdata := RData.nsec s.Zone (nsecTypes store) }], some sig⟩ ∧
      (∀ t, t ∈ nsecTypes store ↔ t < 65536 ∧
        ((newStore.records t).isSome = true ∨ t = TypeSOA ∨ t = TypeRRSIG ∨ t = TypeNSEC)) ∧
      List.Pairwise (· < ·) (nsecTypes store) := by
  refine ⟨_, _, rfl, rfl, ?_, (List.pairwise_lt_range 65536).filter _⟩
  intro t
  rw [nsecTypes, List.mem_filter, List.mem_range]
  by_cases h47 : t = TypeNSEC
  · subst h47
    simp [TypeNSEC]
  · constructor
    · rintro ⟨hlt, hp⟩
      refine ⟨hlt, ?_⟩
      simp only [Bool.or_eq_true, beq_iff_eq] at hp
      rcases hp with ((hs | h6) | h46) | h47x
      · left
        dsimp only
        rw [if_neg h47]
        exact hs
      · right; left; exact h6
      · right; right; left; exact h46
      · exact absurd h47x h47
    · rintro ⟨hlt, hp⟩
      refine ⟨hlt, ?_⟩
      simp only [Bool.or_eq_true, beq_iff_eq]
      rcases hp with hs | h6 | h46 | h47x
      · dsimp only at hs
        rw [if_neg h47] at hs
        exact Or.inl (Or.inl (Or.inl hs))
      · exact Or.inl (Or.inl (Or.inr h6))
      · exact Or.inl (Or.inr h46)
      · exact absurd h47x h47

/-! ## Claim C8 — AXFR Transfer shape -/

/-- The occupied record slots in ascending type-code order. -/
def occupiedTypes (store : Store) : List Nat :=
  (List.range 65536).filter fun t => (store.records t).isSome

theorem filter_isSome_filterMap {α β} (f : α → Option β) (l : List α) :
    (l.filter fun t => (f t).isSome).filterMap f = l.filterMap f := by
  induction l with
  | nil => rfl
  | cons x xs ih =>
    rcases hx : f x with _ | v
    · simp [List.filter_cons, List.filterMap_cons, hx, ih]
    · simp [List.filter_cons, List.filterMap_cons, hx, ih]

theorem filterMap_length_of_isSome {α β} (f : α → Option β) (l : List α)
    (h : ∀ t ∈ l, (f t).isSome = true) : (l.filterMap f).length = l.length := by
  induction l with
  | nil => rfl
  | cons x xs ih =>
    rcases hx : f x with _ | v
    · have hm := h x (by simp)
      rw [hx] at hm
      cases hm
    · rw [List.filterMap_cons, hx, List.length_cons, List.length_cons,
        ih (fun t ht => h t (List.mem_cons_of_mem _ ht))]

/-- Claim C8: when the SOA slot is non-empty, `Transfer()` has the SOA
record set (an edge entry, no signature) as both its first and its last
element, and strictly in between lie exactly the occupied record slots,
one entry per occupied slot, in ascending type-code order. -/
theorem C8_transfer_soa_edges (store : Store) (soaE : SignedAnswer)
    (h : store.soa = some soaE) :
    (Store.Transfer store).head? = some ⟨soaE.RR, none⟩ ∧
    (Store.Transfer store).getLast? = some ⟨soaE.RR, none⟩ ∧
    ((Store.Transfer store).drop 1).dropLast =
      (occupiedTypes store).filterMap store.records ∧
    (∀ t, t ∈ occupiedTypes store ↔ t < 65536 ∧ (store.records t).isSome = true) ∧
    List.Pairwise (· < ·) (occupiedTypes store) ∧
    ((Store.Transfer store).drop 1).dropLast.length = (occupiedTypes store).length := by
  have htr : Store.Transfer store =
      ⟨soaE.RR, none⟩ ::
        (((List.range 65536).filterMap store.records) ++ [⟨soaE.RR, none⟩]) := by
    rw [Store.Transfer, h]
  have hmid : ((Store.Transfer store).drop 1).dropLast =
      (List.range 65536).filterMap store.records := by
    rw [htr, List.drop_succ_cons, List.drop_zero, List.dropLast_concat]
  have hocc : ∀ t, t ∈ occupiedTypes store ↔ t < 65536 ∧ (store.records t).isSome = true := by
    intro t
    rw [occupiedTypes, List.mem_filter, List.mem_range]
  refine ⟨by rw [htr]; rfl, ?_, ?_, hocc, (List.pairwise_lt_range 65536).filter _, ?_⟩
  · rw [htr, ← List.cons_append]
    exact List.getLast?_concat _
  · rw [hmid, occupiedTypes, filter_isSome_filterMap]
  · rw [hmid, ← filter_isSome_filterMap store.records (List.range 65536)]
    exact filterMap_length_of_isSome _ _
      (fun t ht => ((hocc t).mp ht).2)

/-- Witness for C8 at the example store holding SOA, TXT and NSEC. -/
theorem C8_transfer_soa_edges_witness :
    storeFullExample.soa = some soaAnsExample ∧
    ((Store.Transfer storeFullExample).head? = some ⟨soaAnsExample.RR, none⟩ ∧
    (Store.Transfer storeFullExample).getLast? = some ⟨soaAnsExample.RR, none⟩ ∧
    ((Store.Transfer storeFullExample).drop 1).dropLast =
      (occupiedTypes storeFullExample).filterMap storeFullExample.records ∧
    (∀ t, t ∈ occupiedTypes storeFullExample ↔
      t < 65536 ∧ (storeFullExample.records t).isSome = true) ∧
    List.Pairwise (· < ·) (occupiedTypes storeFullExample) ∧
    ((Store.Transfer storeFullExample).drop 1).dropLast.length =
      (occupiedTypes storeFullExample).length) :=
  ⟨rfl, C8_transfer_soa_edges storeFullExample soaAnsExample rfl⟩

/-! ## Claim C9 — HeaderAtDepth -/

theorem u64sub_eq (a b : Nat) (hb : b ≤ a) (ha : a < 2 ^ 64) : u64sub a b = a - b := by
  rw [u64sub]
  omega

/-- Claim C9: whenever the `D` ancestors of `tip` resolve through the
header lookup (each parent one height below its child) and
`tip.Height ≥ D`, `HeaderAtDepth(tip, D)` returns the ancestor at height
`tip.Height − D` reached by walking `D` parent links; for `D = 0` it
returns `tip` itself without error. -/
theorem C9_headerAtDepth_walks_D_parents (lookup : Nat → Option BlockHeader)
    (tip : BlockHeader) (D : Nat) (anc : Nat → BlockHeader)
    (h0 : anc 0 = tip) (hD : D ≤ tip.Height) (hbound : tip.Height < 2 ^ 64)
    (hstep : ∀ i < D, lookup (anc i).PreviousId = some (anc (i + 1)) ∧
      (anc (i + 1)).Height = (anc i).Height - 1) :
    HeaderAtDepth lookup tip D = .ok (some (anc D)) ∧
    (anc D).Height = tip.Height - D := by
  have hheight : ∀ i, i ≤ D → (anc i).Height = tip.Height - i := by
    intro i
    induction i with
    | zero => intro _; rw [h0]; omega
    | succ n ih =>
      intro hle
      rw [(hstep n (by omega)).2, ih (by omega)]
      omega
  have hDh := hheight D (Nat.le_refl D)
  refine ⟨?_, hDh⟩
  rcases Nat.eq_zero_or_pos D with rfl | hDpos
  · rw [HeaderAtDepth, if_pos rfl, h0]
  · rw [HeaderAtDepth, if_neg (by omega)]
    have hwalk : ∀ r, 1 ≤ r → r ≤ D →
        Walk lookup (anc (D - r)) r none
          (fun s h => if h.Height = u64sub tip.Height D then (some h, false)
            else (s, true)) =
        .ok (some (anc D)) := by
      intro r
      induction r with
      | zero => intro h1; omega
      | succ n ih =>
        intro _ hle
        have hcur : (anc (D - (n + 1))).Height = tip.Height - (D - (n + 1)) :=
          hheight _ (by omega)
        have hcurpos : 0 < (anc (D - (n + 1))).Height := by omega
        have hcurlt : (anc (D - (n + 1))).Height < 2 ^ 64 := by omega
        rw [Walk, if_pos ⟨hcurpos, Nat.succ_pos n⟩]
        have harg : D - (n + 1) + 1 = D - n := by omega
        rw [(hstep (D - (n + 1)) (by omega)).1, harg]
        dsimp only
        have hph : (anc (D - n)).Height = tip.Height - (D - n) := hheight _ (by omega)
        have hpheq : (anc (D - n)).Height = u64sub (anc (D - (n + 1))).Height 1 := by
          rw [u64sub_eq _ _ (by omega) hcurlt, ← harg, (hstep (D - (n + 1)) (by omega)).2]
        rw [if_neg (fun hc => hc hpheq)]
        have htgt : u64sub tip.Height D = tip.Height - D := u64sub_eq _ _ hD hbound
        by_cases hn0 : n = 0
        · subst hn0
          have : (anc (D - 0)).Height = u64sub tip.Height D := by
            rw [htgt, hph]
            omega
          rw [if_pos this]
          dsimp only
          rw [if_pos rfl, Nat.sub_zero]
        · have hne : ¬((anc (D - n)).Height = u64sub tip.Height D) := by
            rw [htgt, hph]
            omega
          rw [if_neg hne]
          dsimp only
          rw [if_neg (by decide), Nat.add_sub_cancel]
          exact ih (by omega) (by omega)
    have hw := hwalk D (by omega) (Nat.le_refl D)
    rw [Nat.sub_self, h0] at hw
    exact hw

def bhTip : BlockHeader := ⟨10, 100, 99⟩

def bhMid : BlockHeader := ⟨9, 99, 98⟩

def bhDeep : BlockHeader := ⟨8, 98, 97⟩

/-- A three-header ancestry for the witness: depth 0 ↦ tip, 1 ↦ mid,
everything deeper ↦ deep. -/
def ancExample : Nat → BlockHeader :=
  fun i => if i = 0 then bhTip else if i = 1 then bhMid else bhDeep

/-- The header cache for the witness: ids 99 and 98 resolve. -/
def lookupExample : Nat → Option BlockHeader :=
  fun id => if id = 99 then some bhMid else if id = 98 then some bhDeep else none

/-- Witness for C9: walking 2 parents from height 10 reaches the header
at height 8. -/
theorem C9_headerAtDepth_walks_D_parents_witness :
    (ancExample 0 = bhTip ∧ 2 ≤ bhTip.Height ∧ bhTip.Height < 2 ^ 64 ∧
      (∀ i < 2, lookupExample (ancExample i).PreviousId = some (ancExample (i + 1)) ∧
        (ancExample (i + 1)).Height = (ancExample i).Height - 1)) ∧
    (HeaderAtDepth lookupExample bhTip 2 = .ok (some (ancExample 2)) ∧
      (ancExample 2).Height = bhTip.Height - 2) :=
  ⟨⟨rfl, by decide, by decide, by decide⟩,
    C9_headerAtDepth_walks_D_parents lookupExample bhTip 2 ancExample rfl
      (by decide) (by decide) (by decide)⟩

/-! ## Claim C10 — nil-dereference safety of the DO=1 authority branches -/

theorem answerQuestions_ok_of_populated (zone : DnsName) (store : Store)
    (handleAXFR isDNSSEC : Bool)
    (hsoa : store.soa.isSome = true)
    (hnsec : (store.records TypeNSEC).isSome = true) :
    ∀ qs msg, ∃ rep, answerQuestions zone store handleAXFR isDNSSEC qs msg = .ok rep := by
  have hgsoa : ∃ soaE, Store.Get store TypeSOA = some soaE := by
    rw [Store.Get, if_pos rfl]
    exact Option.isSome_iff_exists.mp hsoa
  have hgnsec : ∃ nsecE, Store.Get store TypeNSEC = some nsecE := by
    rw [Store.Get, if_neg (by decide)]
    exact Option.isSome_iff_exists.mp hnsec
  rcases hgsoa with ⟨soaE, hgs⟩
  rcases hgnsec with ⟨nsecE, hgn⟩
  intro qs
  induction qs with
  | nil => intro msg; exact ⟨msg, rfl⟩
  | cons q rest ih =>
    intro msg
    rw [answerQuestions]
    by_cases hcond : q.Qclass = ClassINET ∧ CompareDomainName q.Name zone = zone.length
    · rw [if_pos hcond]
      by_cases heq : CountLabel q.Name = zone.length
      · rw [if_pos heq]
        rcases hget : Store.Get store q.Qtype with _ | answer
        · simp only [hget]
          by_cases haxfr : q.Qtype = TypeAXFR ∧ handleAXFR = true
          · rw [if_pos haxfr]
            exact ⟨_, rfl⟩
          · rw [if_neg haxfr]
            by_cases hdo : isDNSSEC = true
            · rw [if_pos hdo]
              simp only [hgs, hgn]
              exact ⟨_, rfl⟩
            · rw [if_neg hdo]
              exact ⟨_, rfl⟩
        · simp only [hget]
          exact ⟨_, rfl⟩
      · rw [if_neg heq]
        by_cases hgt : CountLabel q.Name > zone.length
        · rw [if_pos hgt]
          by_cases hdo : isDNSSEC = true
          · rw [if_pos hdo]
            simp only [hgs, hgn]
            exact ⟨_, rfl⟩
          · rw [if_neg hdo]
            exact ⟨_, rfl⟩
        · rw [if_neg hgt]
          exact ⟨_, rfl⟩
    · rw [if_neg hcond]
      exact ih msg

/-- An apex A query against the example zone, reaching the NODATA path. -/
def qApexAExample : Question := ⟨zoneExample, 1, ClassINET⟩

/-- Claim C10: with the SOA and NSEC slots both populated (as `main`
arranges before serving), the handler never reaches the nil dereference
of the DO=1 NODATA / NXDOMAIN authority branches — every handled request
yields an ok reply.  For a store missing the SOA slot (here the empty
store) the error branch is reachable: the DO=1 apex NODATA query makes
the handler dereference the nil `Get(SOA)` result. -/
theorem C10_authority_branches_nil_safety (signer : Signer) (store : Store)
    (udp ax : Bool) (buf opcode : Nat) (edns : Option Edns0) (qs : List Question)
    (hsoa : store.soa.isSome = true)
    (hnsec : (store.records TypeNSEC).isSome = true) :
    (∀ e, RequestHandler signer store udp ax buf opcode edns qs ≠ some (Except.error e)) ∧
    (RequestHandler signerExample Store.empty false false 4096 OpcodeQuery
      (some { Version := 0, DOBit := true, UDPSize := 4096 }) [qApexAExample] =
      some (Except.error ('n' :: 'i' :: 'l' :: []))) := by
  constructor
  · intro e hcontra
    rw [RequestHandler] at hcontra
    by_cases hdrop : qs.length = 0 ∨ opcode ≠ OpcodeQuery
    · rw [if_pos hdrop] at hcontra
      cases hcontra
    · rw [if_neg hdrop] at hcontra
      rcases edns with _ | e0
      · dsimp only at hcontra
        rcases answerQuestions_ok_of_populated signer.Zone store ax false hsoa hnsec
          qs replyZero with ⟨rep, hrep⟩
        rw [hrep] at hcontra
        cases hcontra
      · dsimp only at hcontra
        by_cases hv : e0.Version ≠ 0
        · rw [if_pos hv] at hcontra
          cases hcontra
        · rw [if_neg hv] at hcontra
          rcases answerQuestions_ok_of_populated signer.Zone store ax e0.DOBit hsoa hnsec
            qs replyZero with ⟨rep, hrep⟩
          rw [hrep] at hcontra
          cases hcontra
  · decide

/-- Witness for C10 at the example store holding SOA, TXT and NSEC. -/
theorem C10_authority_branches_nil_safety_witness :
    (storeFullExample.soa.isSome = true ∧
      (storeFullExample.records TypeNSEC).isSome = true) ∧
    ((∀ e, RequestHandler signerExample storeFullExample true false 4096 OpcodeQuery
        none [qApexAExample] ≠ some (Except.error e)) ∧
    (RequestHandler signerExample Store.empty false false 4096 OpcodeQuery
      (some { Version := 0, DOBit := true, UDPSize := 4096 }) [qApexAExample] =
      some (Except.error ('n' :: 'i' :: 'l' :: [])))) :=
  ⟨⟨rfl, rfl⟩,
    C10_authority_branches_nil_safety signerExample storeFullExample true false 4096
      OpcodeQuery none [qApexAExample] rfl rfl⟩

end MoneroHighway
